import Mathlib

/-!
Verification of the markdown rendering utilities of this repository
(`src/utils/mod.rs`): the link and image destination rewriter
`adjust_links`, the code fence info normalizer `clean_codeblock_headers`,
the quote curling state machine `EventQuoteConverter` with its character
level worker `convert_quotes_to_curly`, and the anchor id derivation
functions `normalize_id` and `id_from_content`.

Rust strings are modelled as lists of Unicode characters, matching the
`chars()` iteration used throughout the source.  The two compiled regular
expressions (`SCHEME_LINK` and `MD_LINK`) are modelled by executable
functions that follow the leftmost first, greedy backtracking semantics of
the Rust regex crate, where `.` matches every character except a newline.
-/

namespace MdBookUtils

/-- Rust strings, iterated by `chars()`, are modelled as lists of characters. -/
abbrev Str := List Char

/-- The newline character, the one character not matched by `.` in a regex. -/
def newlineChar : Char := Char.ofNat 10

/-- The straight single quote character (code 39). -/
def squoteChar : Char := Char.ofNat 39

/-- The straight double quote character (code 34). -/
def dquoteChar : Char := Char.ofNat 34

/-- The left single curly quote (U+2018). -/
def lsquoChar : Char := Char.ofNat 0x2018

/-- The right single curly quote (U+2019). -/
def rsquoChar : Char := Char.ofNat 0x2019

/-- The left double curly quote (U+201C). -/
def ldquoChar : Char := Char.ofNat 0x201C

/-- The right double curly quote (U+201D). -/
def rdquoChar : Char := Char.ofNat 0x201D

/-- Model of `char::is_whitespace` from the Rust standard library: the
exact set of Unicode characters with the White_Space property. -/
def rustIsWhitespace (c : Char) : Bool :=
  decide (c.toNat = 9 ∨ c.toNat = 10 ∨ c.toNat = 11 ∨ c.toNat = 12 ∨ c.toNat = 13 ∨
    c.toNat = 32 ∨ c.toNat = 133 ∨ c.toNat = 160 ∨ c.toNat = 5760 ∨
    (8192 ≤ c.toNat ∧ c.toNat ≤ 8202) ∨ c.toNat = 8232 ∨ c.toNat = 8233 ∨
    c.toNat = 8239 ∨ c.toNat = 8287 ∨ c.toNat = 12288)

/-- Model of `char::is_alphanumeric` from the Rust standard library
(Unicode Alphabetic or number category).  ASCII is exact; beyond ASCII the
model lists the alphanumeric ranges exercised by this development (Latin-1
letters and numeric signs, Latin Extended and IPA, Greek, Cyrillic, Hebrew,
Arabic, Hiragana, Katakana, CJK Unified Ideographs, Hangul syllables and
fullwidth forms); characters outside these ranges are classified
non alphanumeric. -/
def rustIsAlphanumeric (c : Char) : Bool :=
  decide ((48 ≤ c.toNat ∧ c.toNat ≤ 57) ∨ (65 ≤ c.toNat ∧ c.toNat ≤ 90) ∨
    (97 ≤ c.toNat ∧ c.toNat ≤ 122) ∨
    c.toNat = 170 ∨ c.toNat = 178 ∨ c.toNat = 179 ∨ c.toNat = 181 ∨
    c.toNat = 185 ∨ c.toNat = 186 ∨ (188 ≤ c.toNat ∧ c.toNat ≤ 190) ∨
    (192 ≤ c.toNat ∧ c.toNat ≤ 214) ∨ (216 ≤ c.toNat ∧ c.toNat ≤ 246) ∨
    (248 ≤ c.toNat ∧ c.toNat ≤ 705) ∨
    (913 ≤ c.toNat ∧ c.toNat ≤ 929) ∨ (931 ≤ c.toNat ∧ c.toNat ≤ 969) ∨
    c.toNat = 1025 ∨ (1040 ≤ c.toNat ∧ c.toNat ≤ 1103) ∨ c.toNat = 1105 ∨
    (1488 ≤ c.toNat ∧ c.toNat ≤ 1514) ∨
    (1569 ≤ c.toNat ∧ c.toNat ≤ 1594) ∨ (1601 ≤ c.toNat ∧ c.toNat ≤ 1610) ∨
    (12353 ≤ c.toNat ∧ c.toNat ≤ 12438) ∨ (12449 ≤ c.toNat ∧ c.toNat ≤ 12538) ∨
    c.toNat = 12540 ∨
    (19968 ≤ c.toNat ∧ c.toNat ≤ 40943) ∨ (44032 ≤ c.toNat ∧ c.toNat ≤ 55203) ∨
    (65296 ≤ c.toNat ∧ c.toNat ≤ 65305) ∨ (65313 ≤ c.toNat ∧ c.toNat ≤ 65338) ∨
    (65345 ≤ c.toNat ∧ c.toNat ≤ 65370))

/-- Model of `char::to_ascii_lowercase`: ASCII capital letters are shifted
to the corresponding small letters, every other character is unchanged. -/
def rustToAsciiLowercase (c : Char) : Char :=
  if 65 ≤ c.toNat ∧ c.toNat ≤ 90 then Char.ofNat (c.toNat + 32) else c

/-- The character level filter map inside `normalize_id`: alphanumeric
characters, underscore and hyphen are kept (ASCII lowercased), whitespace
becomes a hyphen, and everything else is dropped. -/
def normalizeChar (ch : Char) : Option Char :=
  if rustIsAlphanumeric ch || ch = '_' || ch = '-' then some (rustToAsciiLowercase ch)
  else if rustIsWhitespace ch then some '-'
  else none

/-- Translation of `normalize_id` from `src/utils/mod.rs`. -/
def normalize_id (content : Str) : Str :=
  content.filterMap normalizeChar

/-- Fuel driven worker for `removeAll`.  The fuel only makes the structural
recursion explicit: each step consumes at least one character, so starting
the fuel at the length of the string never exhausts it. -/
def removeAllGo (pat : Str) : Nat → Str → Str
  | _, [] => []
  | 0, s => s
  | Nat.succ fuel, c :: rest =>
    if pat ≠ [] ∧ pat.isPrefixOf (c :: rest)
    then removeAllGo pat fuel (List.drop pat.length (c :: rest))
    else c :: removeAllGo pat fuel rest

/-- Model of `str::replace(pat, "")` from the Rust standard library:
remove every non overlapping occurrence of `pat`, scanning left to right. -/
def removeAll (pat s : Str) : Str :=
  removeAllGo pat s.length s

/-- Model of `str::trim`: remove leading and trailing whitespace. -/
def trimChars (s : Str) : Str :=
  ((s.dropWhile rustIsWhitespace).reverse.dropWhile rustIsWhitespace).reverse

/-- The fixed list `REPL_SUB` of tag and entity substrings removed by
`id_from_content`. -/
def replSub : List Str :=
  ["<em>".toList, "</em>".toList, "<code>".toList, "</code>".toList,
   "<strong>".toList, "</strong>".toList, "&lt;".toList, "&gt;".toList,
   "&amp;".toList, "&#39;".toList, "&quot;".toList]

/-- Translation of `id_from_content` from `src/utils/mod.rs`: remove the
`REPL_SUB` substrings in order, trim whitespace, strip leading hash marks,
trim again, then normalize. -/
def id_from_content (content : Str) : Str :=
  normalize_id (trimChars
    ((trimChars (replSub.foldl (fun acc pat => removeAll pat acc) content)).dropWhile
      (fun c => c = '#')))

/-- ASCII small letters, the `[a-z]` class of `SCHEME_LINK`. -/
def isAsciiLowerChar (c : Char) : Bool :=
  decide (97 ≤ c.toNat ∧ c.toNat ≤ 122)

/-- ASCII capital letters. -/
def isAsciiUpperChar (c : Char) : Bool :=
  decide (65 ≤ c.toNat ∧ c.toNat ≤ 90)

/-- ASCII digits. -/
def isAsciiDigitChar (c : Char) : Bool :=
  decide (48 ≤ c.toNat ∧ c.toNat ≤ 57)

/-- The `[a-z0-9+.-]` character class of the `SCHEME_LINK` regex. -/
def isSchemeChar (c : Char) : Bool :=
  isAsciiLowerChar c || isAsciiDigitChar c || c = '+' || c = '.' || c = '-'

/-- Scan for `[a-z0-9+.-]*:` at the start of the remaining input.  Because
the colon is not part of the character class, the greedy star admits no
backtracking ambiguity: the scan runs through class characters and succeeds
exactly when the first non class character is a colon. -/
def schemeTail : Str → Bool
  | [] => false
  | c :: rest => if c = ':' then true else if isSchemeChar c then schemeTail rest else false

/-- Model of `SCHEME_LINK.is_match`, the anchored regex `^[a-z][a-z0-9+.-]*:`. -/
def schemeMatches : Str → Bool
  | [] => false
  | c :: rest => isAsciiLowerChar c && schemeTail rest

/-- Whether the three characters `.md` occur at index `j` of `s`. -/
def isMdAt (s : Str) (j : Nat) : Bool :=
  decide ((s.drop j).take 3 = ['.', 'm', 'd'])

/-- Whether `j` is a valid end of the `link` group for a `MD_LINK` match
attempt starting at `st`: the gap is reachable by `.*` (no newline) and
`.md` follows at `j`. -/
def validJ (s : Str) (st j : Nat) : Bool :=
  decide (st ≤ j) && ((s.drop st).take (j - st)).all (fun c => decide (c ≠ newlineChar)) &&
    isMdAt s j

/-- Whether a `MD_LINK` match attempt starting at index `st` succeeds. -/
def startMatches (s : Str) (st : Nat) : Bool :=
  (List.range s.length).any (validJ s st)

/-- Model of `MD_LINK.captures`, the unanchored regex
`(?P<link>.*)\.md(?P<anchor>#.*)?` under leftmost first, greedy semantics:
the match starts at the smallest possible index, the `link` group extends
to the largest reachable `.md`, and the optional `anchor` group greedily
takes a hash sign and the following characters up to a newline or the end.
Returns the captured `link` and optional `anchor` groups. -/
def mdCaptures (s : Str) : Option (Str × Option Str) :=
  match (List.range s.length).find? (startMatches s) with
  | none => none
  | some st =>
    match ((List.range s.length).filter (validJ s st)).getLast? with
    | none => none
    | some j =>
      let anchor : Option Str :=
        match s.drop (j + 3) with
        | c :: rest =>
          if c = '#' then some ('#' :: rest.takeWhile (fun x => decide (x ≠ newlineChar)))
          else none
        | [] => none
      some ((s.drop st).take (j - st), anchor)

/-- Whether `.md` occurs anywhere in `s`; equivalent to `MD_LINK` having a
match, since the leading `.*` may be empty. -/
def containsMd (s : Str) : Bool :=
  (List.range s.length).any (isMdAt s)

/-- Translation of the inner function `fix` of `adjust_links`: destinations
with a URI scheme are returned unchanged; otherwise the base prefix (with a
slash) is prepended when non empty, and a `MD_LINK` match replaces the
matched part by the `link` group, `.html`, and the `anchor` group. -/
def fix (dest : Str) (base : Str) : Str :=
  if schemeMatches dest then dest
  else
    let withBase : Str := if base = [] then [] else base ++ ['/']
    match mdCaptures dest with
    | some (link, anchor) =>
      withBase ++ link ++ ".html".toList ++ (match anchor with | some a => a | none => [])
    | none => withBase ++ dest

/-- The pulldown cmark link type carried by link and image tags. -/
inductive LinkType
  | Inline
  | Reference
  | ReferenceUnknown
  | Collapsed
  | CollapsedUnknown
  | Shortcut
  | ShortcutUnknown
  | Autolink
  | Email
deriving DecidableEq

/-- Table column alignments carried by table tags. -/
inductive Alignment
  | NoAlign
  | LeftAlign
  | CenterAlign
  | RightAlign
deriving DecidableEq

/-- The pulldown cmark tags relevant to the renderer.  `CodeBlock` carries
the fence info string, `Link` and `Image` carry a link type, a destination
and a title. -/
inductive Tag
  | Paragraph
  | Heading (level : Nat)
  | BlockQuote
  | CodeBlock (info : Str)
  | ListTag (start : Option Nat)
  | Item
  | FootnoteDefinition (label : Str)
  | Table (aligns : List Alignment)
  | TableHead
  | TableRow
  | TableCell
  | Emphasis
  | Strong
  | Strikethrough
  | Link (linkType : LinkType) (dest : Str) (title : Str)
  | Image (linkType : LinkType) (dest : Str) (title : Str)
deriving DecidableEq

/-- The pulldown cmark render events consumed and produced by the
transformation pipeline. -/
inductive Event
  | Start (tag : Tag)
  | End (tag : Tag)
  | Text (content : Str)
  | Code (content : Str)
  | Html (content : Str)
  | FootnoteReference (label : Str)
  | SoftBreak
  | HardBreak
  | Rule
  | TaskListMarker (checked : Bool)
deriving DecidableEq

/-- Translation of `adjust_links` from `src/utils/mod.rs`: rewrite the
destination of link and image start tags with `fix`, pass every other
event through. -/
def adjust_links (event : Event) (with_base : Str) : Event :=
  match event with
  | .Start (.Link linkType dest title) => .Start (.Link linkType (fix dest with_base) title)
  | .Start (.Image linkType dest title) => .Start (.Image linkType (fix dest with_base) title)
  | e => e

/-- Translation of `clean_codeblock_headers` from `src/utils/mod.rs`:
drop every whitespace character from the info string of a code block start
tag, pass every other event through. -/
def clean_codeblock_headers (event : Event) : Event :=
  match event with
  | .Start (.CodeBlock info) => .Start (.CodeBlock (info.filter (fun ch => !rustIsWhitespace ch)))
  | e => e

/-- The per character conversion inside `convert_quotes_to_curly`: straight
quotes become opening curly quotes after whitespace and closing curly
quotes otherwise, every other character is unchanged. -/
def curlChar (precededByWhitespace : Bool) (c : Char) : Char :=
  if c = squoteChar then (if precededByWhitespace then lsquoChar else rsquoChar)
  else if c = dquoteChar then (if precededByWhitespace then ldquoChar else rdquoChar)
  else c

/-- The character scan of `convert_quotes_to_curly`, carrying the
preceded by whitespace cursor; after each character the cursor records
whether that original character is whitespace. -/
def convertQuotesAux (precededByWhitespace : Bool) : Str → Str
  | [] => []
  | c :: rest => curlChar precededByWhitespace c :: convertQuotesAux (rustIsWhitespace c) rest

/-- Translation of `convert_quotes_to_curly` from `src/utils/mod.rs`: the
cursor starts as true (the start of the run counts as whitespace). -/
def convert_quotes_to_curly (original_text : Str) : Str :=
  convertQuotesAux true original_text

/-- The state of the quote converter: the global enable flag and the
mutable flag telling whether text is currently converted (false inside a
code block). -/
structure EventQuoteConverter where
  enabled : Bool
  convert_text : Bool
deriving DecidableEq

/-- Translation of `EventQuoteConverter::new`. -/
def EventQuoteConverter.new (enabled : Bool) : EventQuoteConverter :=
  { enabled := enabled, convert_text := true }

/-- Translation of `EventQuoteConverter::convert`, returning the updated
state together with the output event. -/
def EventQuoteConverter.convert (st : EventQuoteConverter) (event : Event) :
    EventQuoteConverter × Event :=
  if !st.enabled then (st, event)
  else
    match event with
    | .Start (.CodeBlock info) => ({ st with convert_text := false }, .Start (.CodeBlock info))
    | .End (.CodeBlock info) => ({ st with convert_text := true }, .End (.CodeBlock info))
    | .Text text =>
      if st.convert_text then (st, .Text (convert_quotes_to_curly text)) else (st, .Text text)
    | e => (st, e)

/-- Run the quote converter over a list of events, threading the state and
collecting the outputs, as the `map` over the parser events does. -/
def runConverter (st : EventQuoteConverter) : List Event → List Event
  | [] => []
  | e :: rest =>
    let p := st.convert e
    p.2 :: runConverter p.1 rest

/-- Whether an event is a code block start or end tag, the events that
flip the suppression state of the quote converter. -/
def isCodeBlockBoundary : Event → Bool
  | .Start (.CodeBlock _) => true
  | .End (.CodeBlock _) => true
  | _ => false

/-- Whether an event is a code block start tag, the only event shape
touched by `clean_codeblock_headers`. -/
def isCodeBlockStart : Event → Bool
  | .Start (.CodeBlock _) => true
  | _ => false

/-- Whether an event is a link or image start tag, the only event shapes
touched by `adjust_links`. -/
def isLinkOrImageStart : Event → Bool
  | .Start (.Link _ _ _) => true
  | .Start (.Image _ _ _) => true
  | _ => false

/-- Claim side predicate, following the words of C1: the destination ends
in `.md`, optionally followed by a fragment that starts with a hash sign
and runs to the end of the string. -/
def endsInMdOptionalFragment (s : Str) : Bool :=
  ['.', 'm', 'd'].isSuffixOf s ||
    (List.range s.length).any
      (fun i => decide (s.getD i ' ' = '#') && ['.', 'm', 'd'].isSuffixOf (s.take i))

/-- If no `.md` occurs in the string, `MD_LINK` has no match. -/
theorem mdCaptures_eq_none_of_not_containsMd (s : Str) (h : containsMd s = false) :
    mdCaptures s = none := by
  have h2 : ∀ j ∈ List.range s.length, ¬ isMdAt s j = true := by
    intro j hj hmd
    have hc : containsMd s = true := by
      unfold containsMd
      rw [List.any_eq_true]
      exact ⟨j, hj, hmd⟩
    rw [h] at hc
    exact Bool.false_ne_true hc
  have hfind : (List.range s.length).find? (startMatches s) = none := by
    rw [List.find?_eq_none]
    intro st hst hsm
    unfold startMatches at hsm
    rw [List.any_eq_true] at hsm
    obtain ⟨j, hj, hv⟩ := hsm
    unfold validJ at hv
    rw [Bool.and_eq_true, Bool.and_eq_true] at hv
    exact h2 j hj hv.2
  unfold mdCaptures
  rw [hfind]

/-- C1 (amended): for a destination with no URI scheme, if the destination
contains no occurrence of the substring `.md` at all, it is appended to the
base prefix unchanged; in particular an `md` not preceded by a dot (for
example inside an anchor) never triggers the `.md` to `.html` rewrite.
(The original claim, that any destination not ending in `.md` with an
optional fragment is left unchanged, fails: the `MD_LINK` regex is
unanchored, so a `.md` followed by a further suffix still rewrites.) -/
theorem c1_no_md_appended_unchanged (dest base : Str)
    (h1 : schemeMatches dest = false) (h2 : containsMd dest = false) :
    fix dest base = (if base = [] then [] else base ++ ['/']) ++ dest := by
  simp [fix, h1, mdCaptures_eq_none_of_not_containsMd dest h2]

/-- Witness for C1 (amended): a destination whose anchor contains `md`
without a dot is appended to the base unchanged. -/
theorem c1_witness :
    fix ['f', 'o', 'o', '#', 'm', 'd'] ['b'] = ['b', '/', 'f', 'o', 'o', '#', 'm', 'd'] := by
  rw [c1_no_md_appended_unchanged ['f', 'o', 'o', '#', 'm', 'd'] ['b'] (by decide) (by decide)]
  decide

/-- Counterexample to C1 as stated: `foo.md.txt` does not end in `.md`
with an optional fragment and has no URI scheme, yet the rewriter does not
leave it unchanged — it produces `foo.html`, because the unanchored
`MD_LINK` regex still matches the inner `.md`. -/
theorem c1_counterexample :
    endsInMdOptionalFragment ['f', 'o', 'o', '.', 'm', 'd', '.', 't', 'x', 't'] = false ∧
    schemeMatches ['f', 'o', 'o', '.', 'm', 'd', '.', 't', 'x', 't'] = false ∧
    fix ['f', 'o', 'o', '.', 'm', 'd', '.', 't', 'x', 't'] [] =
      ['f', 'o', 'o', '.', 'h', 't', 'm', 'l'] ∧
    fix ['f', 'o', 'o', '.', 'm', 'd', '.', 't', 'x', 't'] [] ≠
      ['f', 'o', 'o', '.', 'm', 'd', '.', 't', 'x', 't'] := by
  decide

/-- A run of scheme class characters followed by a colon satisfies the
`schemeTail` scan. -/
theorem schemeTail_append_colon (cs rest : Str) (h : cs.all isSchemeChar = true) :
    schemeTail (cs ++ ':' :: rest) = true := by
  induction cs with
  | nil => simp [schemeTail]
  | cons c cs ih =>
    rw [List.all_cons, Bool.and_eq_true] at h
    by_cases hcolon : c = ':'
    · simp [schemeTail, hcolon]
    · simp [schemeTail, hcolon, h.1, ih h.2]

/-- C2: a destination matching the URI scheme prefix syntax — a small
letter, then a run of letters, digits, plus, dot or hyphen, then a colon,
then anything — is returned byte identical by the rewriter, for every base
string, empty or not. -/
theorem c2_scheme_unchanged (c0 : Char) (cs rest base : Str)
    (h1 : isAsciiLowerChar c0 = true) (h2 : cs.all isSchemeChar = true) :
    fix (c0 :: (cs ++ ':' :: rest)) base = c0 :: (cs ++ ':' :: rest) := by
  have hs : schemeMatches (c0 :: (cs ++ ':' :: rest)) = true := by
    simp [schemeMatches, h1, schemeTail_append_colon cs rest h2]
  simp [fix, hs]

/-- Witness for C2 at `https://www.rust-lang.org/` with base `book`. -/
theorem c2_witness :
    fix ('h' :: ("ttps".toList ++ ':' :: "//www.rust-lang.org/".toList)) "book".toList =
      'h' :: ("ttps".toList ++ ':' :: "//www.rust-lang.org/".toList) :=
  c2_scheme_unchanged 'h' "ttps".toList "//www.rust-lang.org/".toList "book".toList
    (by decide) (by decide)

/-- An ASCII capital letter placed before any colon makes the
`schemeTail` scan fail. -/
theorem schemeTail_false_of_upper (pre : Str) (u : Char) (suf : Str)
    (hu : isAsciiUpperChar u = true) (hp : ':' ∉ pre) :
    schemeTail (pre ++ u :: suf) = false := by
  have hn : 65 ≤ u.toNat ∧ u.toNat ≤ 90 := by
    unfold isAsciiUpperChar at hu
    exact of_decide_eq_true hu
  have hcolon : ¬ (u = ':') := by
    intro h
    subst h
    revert hn
    decide
  have hclass : isSchemeChar u = false := by
    have hplus : ¬ (u = '+') := by intro h; subst h; revert hn; decide
    have hdot : ¬ (u = '.') := by intro h; subst h; revert hn; decide
    have hdash : ¬ (u = '-') := by intro h; subst h; revert hn; decide
    have hlow : isAsciiLowerChar u = false := decide_eq_false (by omega)
    have hdig : isAsciiDigitChar u = false := decide_eq_false (by omega)
    simp [isSchemeChar, hlow, hdig, hplus, hdot, hdash]
  induction pre with
  | nil => simp [schemeTail, hcolon, hclass]
  | cons c pre ih =>
    have hc : ¬ (c = ':') := fun h => hp (h ▸ List.mem_cons_self c pre)
    have hrec := ih (fun hm => hp (List.mem_cons_of_mem c hm))
    by_cases hcl : isSchemeChar c = true
    · simp [schemeTail, hc, hcl, hrec]
    · simp [schemeTail, hc, hcl]

/-- C9: the scheme check is lowercase only.  A destination containing an
ASCII capital letter before any colon is never matched by
`^[a-z][a-z0-9+.-]*:`, so with a non empty base the rewriter treats it as a
relative path: the result starts with the base followed by a slash. -/
theorem c9_uppercase_scheme (pre : Str) (u : Char) (suf base : Str)
    (h1 : isAsciiUpperChar u = true) (h2 : ':' ∉ pre) (h3 : base ≠ []) :
    schemeMatches (pre ++ u :: suf) = false ∧
    ∃ rest, fix (pre ++ u :: suf) base = base ++ '/' :: rest := by
  have hsm : schemeMatches (pre ++ u :: suf) = false := by
    cases pre with
    | nil =>
      have hn : 65 ≤ u.toNat ∧ u.toNat ≤ 90 := by
        unfold isAsciiUpperChar at h1
        exact of_decide_eq_true h1
      have hlow : isAsciiLowerChar u = false := decide_eq_false (by omega)
      simp [schemeMatches, hlow]
    | cons c pre2 =>
      have ht := schemeTail_false_of_upper pre2 u suf h1
        (fun hm => h2 (List.mem_cons_of_mem c hm))
      simp [schemeMatches, ht]
  refine ⟨hsm, ?_⟩
  cases hm : mdCaptures (pre ++ u :: suf) with
  | none =>
    refine ⟨pre ++ u :: suf, ?_⟩
    simp [fix, hsm, hm, h3]
  | some p =>
    refine ⟨p.1 ++ ".html".toList ++ (match p.2 with | some a => a | none => []), ?_⟩
    obtain ⟨link, anchor⟩ := p
    simp [fix, hsm, hm, h3]

/-- Witness for C9 at `HTTPS://example.com` with base `b`. -/
theorem c9_witness :
    schemeMatches ('H' :: "TTPS://example.com".toList) = false ∧
    ∃ rest, fix ('H' :: "TTPS://example.com".toList) ['b'] = ['b'] ++ '/' :: rest :=
  c9_uppercase_scheme [] 'H' "TTPS://example.com".toList ['b']
    (by decide) (by decide) (by decide)

/-- C6: the code fence normalizer maps a code block start tag to the same
tag with every whitespace character dropped from the info string (keeping
all other characters in order), leaves code block end tags completely
unchanged, and leaves every event that is not a code block start tag
completely unchanged. -/
theorem c6_clean_codeblock_headers (info : Str) :
    clean_codeblock_headers (.Start (.CodeBlock info)) =
      .Start (.CodeBlock (info.filter (fun ch => !rustIsWhitespace ch))) ∧
    clean_codeblock_headers (.End (.CodeBlock info)) = .End (.CodeBlock info) ∧
    ∀ e : Event, isCodeBlockStart e = false → clean_codeblock_headers e = e := by
  refine ⟨rfl, rfl, ?_⟩
  intro e he
  cases e with
  | Start tag => cases tag <;> first | rfl | simp [isCodeBlockStart] at he
  | End tag => cases tag <;> rfl
  | Text _ => rfl
  | Code _ => rfl
  | Html _ => rfl
  | FootnoteReference _ => rfl
  | SoftBreak => rfl
  | HardBreak => rfl
  | Rule => rfl
  | TaskListMarker _ => rfl

/-- Witness for C6: whitespace is removed from a fence info string with
commas preserved, and a non code block event passes through. -/
theorem c6_witness :
    clean_codeblock_headers (.Start (.CodeBlock "rust, no_run, ,x".toList)) =
      .Start (.CodeBlock "rust,no_run,,x".toList) ∧
    clean_codeblock_headers .Rule = .Rule :=
  ⟨((c6_clean_codeblock_headers "rust, no_run, ,x".toList).1).trans (by decide),
   (c6_clean_codeblock_headers []).2.2 .Rule (by decide)⟩

/-- C7: the link and image rewriter rewrites exactly the destination field
of link and image start tags, through the same function `fix`, leaving the
link type and title unchanged, and returns every other event (including
link and image end tags) exactly as received. -/
theorem c7_adjust_links_frame (b : Str) (k : LinkType) (d t : Str) :
    adjust_links (.Start (.Link k d t)) b = .Start (.Link k (fix d b) t) ∧
    adjust_links (.Start (.Image k d t)) b = .Start (.Image k (fix d b) t) ∧
    ∀ e : Event, isLinkOrImageStart e = false → adjust_links e b = e := by
  refine ⟨rfl, rfl, ?_⟩
  intro e he
  cases e with
  | Start tag => cases tag <;> first | rfl | simp [isLinkOrImageStart] at he
  | End tag => cases tag <;> rfl
  | Text _ => rfl
  | Code _ => rfl
  | Html _ => rfl
  | FootnoteReference _ => rfl
  | SoftBreak => rfl
  | HardBreak => rfl
  | Rule => rfl
  | TaskListMarker _ => rfl

/-- Witness for C7: a link start tag has only its destination rewritten,
and a link end tag passes through unchanged. -/
theorem c7_witness :
    adjust_links (.Start (.Link .Inline "a.md".toList "t".toList)) ['b'] =
      .Start (.Link .Inline (fix "a.md".toList ['b']) "t".toList) ∧
    adjust_links (.End (.Link .Inline "a.md".toList "t".toList)) ['b'] =
      .End (.Link .Inline "a.md".toList "t".toList) :=
  ⟨(c7_adjust_links_frame ['b'] .Inline "a.md".toList "t".toList).1,
   (c7_adjust_links_frame ['b'] .Inline [] []).2.2
     (.End (.Link .Inline "a.md".toList "t".toList)) (by decide)⟩

/-- C8: code fence info normalization and link or image rewriting commute
on every event, for every base, because they touch disjoint event
shapes. -/
theorem c8_clean_adjust_commute (e : Event) (b : Str) :
    adjust_links (clean_codeblock_headers e) b =
      clean_codeblock_headers (adjust_links e b) := by
  cases e with
  | Start tag => cases tag <;> rfl
  | End tag => cases tag <;> rfl
  | Text _ => rfl
  | Code _ => rfl
  | Html _ => rfl
  | FootnoteReference _ => rfl
  | SoftBreak => rfl
  | HardBreak => rfl
  | Rule => rfl
  | TaskListMarker _ => rfl

/-- With conversion enabled and suppressed, the converter leaves every
event that is not a code block boundary unchanged, and keeps its state. -/
theorem convert_nonboundary (e : Event) (h : isCodeBlockBoundary e = false) :
    EventQuoteConverter.convert ⟨true, false⟩ e = (⟨true, false⟩, e) := by
  cases e with
  | Start tag => cases tag <;> rfl
  | End tag => cases tag <;> first | rfl | simp [isCodeBlockBoundary] at h
  | Text _ => rfl
  | Code _ => rfl
  | Html _ => rfl
  | FootnoteReference _ => rfl
  | SoftBreak => rfl
  | HardBreak => rfl
  | Rule => rfl
  | TaskListMarker _ => rfl

/-- While suppressed, a run of events containing no code block boundary is
output unchanged and the suppressed state is kept. -/
theorem runConverter_suppressed (mid tail : List Event)
    (h : mid.all (fun e => !isCodeBlockBoundary e) = true) :
    runConverter ⟨true, false⟩ (mid ++ tail) = mid ++ runConverter ⟨true, false⟩ tail := by
  induction mid with
  | nil => rfl
  | cons e mid ih =>
    rw [List.all_cons, Bool.and_eq_true] at h
    have he : isCodeBlockBoundary e = false := by
      cases hh : isCodeBlockBoundary e
      · rfl
      · rw [hh] at h
        exact absurd h.1 (by decide)
    rw [List.cons_append, runConverter, convert_nonboundary e he]
    rw [ih h.2]
    rfl

/-- C3: with the enable flag true, after a code block start tag every text
event up to the matching code block end tag passes through with its
content untouched (the whole segment is output unchanged), and after the
end tag the converter is back in the converting state, in which every text
event has `convert_quotes_to_curly` applied to its content. -/
theorem c3_codeblock_suppression (b : Bool) (i j : Str) (mid post : List Event)
    (h : mid.all (fun e => !isCodeBlockBoundary e) = true) :
    runConverter ⟨true, b⟩ (.Start (.CodeBlock i) :: (mid ++ .End (.CodeBlock j) :: post)) =
      .Start (.CodeBlock i) :: (mid ++ .End (.CodeBlock j) :: runConverter ⟨true, true⟩ post) ∧
    ∀ (t : Str) (rest : List Event),
      runConverter ⟨true, true⟩ (.Text t :: rest) =
        .Text (convert_quotes_to_curly t) :: runConverter ⟨true, true⟩ rest := by
  constructor
  · have h1 : EventQuoteConverter.convert ⟨true, b⟩ (.Start (.CodeBlock i)) =
        (⟨true, false⟩, .Start (.CodeBlock i)) := rfl
    rw [runConverter, h1]
    rw [runConverter_suppressed mid _ h]
    have h2 : EventQuoteConverter.convert ⟨true, false⟩ (.End (.CodeBlock j)) =
        (⟨true, true⟩, .End (.CodeBlock j)) := rfl
    rw [runConverter, h2]
  · intro t rest
    rfl

/-- Witness for C3: a straight quote inside the fence stays straight, and
a text event after the end tag is converted. -/
theorem c3_witness :
    runConverter ⟨true, true⟩
        (.Start (.CodeBlock []) ::
          ([Event.Text [squoteChar]] ++ .End (.CodeBlock []) :: [Event.Text [squoteChar]])) =
      .Start (.CodeBlock []) ::
        ([Event.Text [squoteChar]] ++
          .End (.CodeBlock []) :: runConverter ⟨true, true⟩ [Event.Text [squoteChar]]) :=
  (c3_codeblock_suppression true [] [] [Event.Text [squoteChar]] [Event.Text [squoteChar]]
    (by decide)).1

/-- The character scan preserves the length of the run. -/
theorem convertQuotesAux_length (b : Bool) (s : Str) :
    (convertQuotesAux b s).length = s.length := by
  induction s generalizing b with
  | nil => rfl
  | cons c s ih => simp [convertQuotesAux, ih]

/-- Position level description of the character scan: the character at
index `i` of the output is the conversion of the character at index `i` of
the input under a cursor equal to the initial flag at index zero and to
the whitespace test of the previous input character afterwards. -/
theorem convertQuotesAux_getD (b : Bool) (s : Str) (i : Nat) (hi : i < s.length) :
    (convertQuotesAux b s).getD i ' ' =
      curlChar (if i = 0 then b else rustIsWhitespace (s.getD (i - 1) ' ')) (s.getD i ' ') := by
  induction s generalizing b i with
  | nil => simp at hi
  | cons c s ih =>
    cases i with
    | zero => simp [convertQuotesAux]
    | succ n =>
      rw [convertQuotesAux, List.getD_cons_succ]
      rw [ih (rustIsWhitespace c) n (by simpa using hi)]
      cases n with
      | zero => simp
      | succ m => simp

/-- A run with no straight quote characters is returned unchanged by the
character scan, whatever the initial cursor. -/
theorem convertQuotesAux_id (b : Bool) (s : Str)
    (h : ∀ c ∈ s, c ≠ squoteChar ∧ c ≠ dquoteChar) :
    convertQuotesAux b s = s := by
  induction s generalizing b with
  | nil => rfl
  | cons c s ih =>
    have hc := h c (List.mem_cons_self c s)
    simp [convertQuotesAux, curlChar, hc.1, hc.2,
      ih (rustIsWhitespace c) (fun x hx => h x (List.mem_cons_of_mem c hx))]

/-- C4: quote conversion of a single text run maps each character
independently through the cursor rule — the cursor starts true at the
beginning of every run, each straight quote becomes an opening curly quote
when the cursor is true and a closing one otherwise, every other character
passes through, and after each character the cursor is whether that
original character is whitespace — and a run with no straight quote
characters is returned unchanged. -/
theorem c4_quotes_per_char (s : Str) :
    (convert_quotes_to_curly s).length = s.length ∧
    (∀ i, i < s.length →
      (convert_quotes_to_curly s).getD i ' ' =
        curlChar (if i = 0 then true else rustIsWhitespace (s.getD (i - 1) ' '))
          (s.getD i ' ')) ∧
    ((∀ c ∈ s, c ≠ squoteChar ∧ c ≠ dquoteChar) → convert_quotes_to_curly s = s) :=
  ⟨convertQuotesAux_length true s, fun i hi => convertQuotesAux_getD true s i hi,
   fun h => convertQuotesAux_id true s h⟩

/-- Witness for C4: the length invariant at one input, and the identity on
a quote free run at another. -/
theorem c4_witness :
    (convert_quotes_to_curly ['o', 'k']).length = (['o', 'k'] : Str).length ∧
    convert_quotes_to_curly ['a', ' ', 'b'] = ['a', ' ', 'b'] :=
  ⟨(c4_quotes_per_char ['o', 'k']).1, (c4_quotes_per_char ['a', ' ', 'b']).2.2 (by decide)⟩

/-- Claim side function, following the words of C5: simple Unicode aware
lowercasing, given here on ASCII and the Latin-1 capital letters (which
suffices for the characters considered, such as the letter Ü). -/
def unicodeSimpleLower (c : Char) : Char :=
  if 65 ≤ c.toNat ∧ c.toNat ≤ 90 then Char.ofNat (c.toNat + 32)
  else if (192 ≤ c.toNat ∧ c.toNat ≤ 214) ∨ (216 ≤ c.toNat ∧ c.toNat ≤ 222) then
    Char.ofNat (c.toNat + 32)
  else c

/-- Claim side normalizer, following the words of C5: as the source
normalizer, but lowercasing kept characters in a Unicode aware way. -/
def normalizeCharClaimC5 (ch : Char) : Option Char :=
  if rustIsAlphanumeric ch || ch = '_' || ch = '-' then some (unicodeSimpleLower ch)
  else if rustIsWhitespace ch then some '-'
  else none

/-- Claim side version of `normalize_id` under the C5 reading. -/
def normalize_id_claimC5 (content : Str) : Str :=
  content.filterMap normalizeCharClaimC5

/-- Counterexample to C5 as stated: on the capital letter Ü the source
normalizer keeps the character unchanged (it only lowercases ASCII), while
the claimed Unicode aware lowercasing would produce the small letter ü. -/
theorem c5_counterexample :
    normalize_id ['Ü'] = ['Ü'] ∧ normalize_id_claimC5 ['Ü'] = ['ü'] ∧
    normalize_id ['Ü'] ≠ normalize_id_claimC5 ['Ü'] := by
  decide

/-- Character normalizer written to the amended wording of C5: keep
alphanumeric characters, lowercasing exactly the ASCII capital letters and
passing every other character (including non ASCII cased letters)
through unchanged; keep underscore and hyphen; map whitespace to a hyphen;
drop everything else. -/
def amendedNormalizeChar (ch : Char) : Option Char :=
  if rustIsAlphanumeric ch then
    some (if isAsciiUpperChar ch then Char.ofNat (ch.toNat + 32) else ch)
  else if ch = '_' then some ch
  else if ch = '-' then some ch
  else if rustIsWhitespace ch then some '-'
  else none

/-- The anchor id pipeline under the amended C5 wording: remove the fixed
tag and entity substrings, trim whitespace, strip leading hash marks, trim
again, then normalize character by character. -/
def id_from_content_amendedC5 (content : Str) : Str :=
  (trimChars
    ((trimChars (replSub.foldl (fun acc pat => removeAll pat acc) content)).dropWhile
      (fun c => c = '#'))).filterMap amendedNormalizeChar

/-- The source normalizer and the amended claim normalizer agree on every
character. -/
theorem normalizeChar_eq_amended (ch : Char) : normalizeChar ch = amendedNormalizeChar ch := by
  by_cases ha : rustIsAlphanumeric ch = true
  · simp [normalizeChar, amendedNormalizeChar, ha, rustToAsciiLowercase, isAsciiUpperChar,
      decide_eq_true_eq]
  · by_cases hu : ch = '_'
    · subst hu; decide
    · by_cases hh : ch = '-'
      · subst hh; decide
      · simp [normalizeChar, amendedNormalizeChar, ha, hu, hh]

/-- C5 (amended): the anchor id deriver removes the fixed tag and entity
substrings, trims whitespace, strips leading hash marks, trims again, and
normalizes character by character — keeping alphanumeric characters with
only ASCII capital letters lowercased (non ASCII characters, cased or not,
pass through unchanged), keeping underscore and hyphen, mapping whitespace
to a hyphen and dropping every other character; empty input yields the
empty string.  (The original claim fails only in asserting Unicode aware
lowercasing: the source uses ASCII lowercasing.) -/
theorem c5_id_from_content_amended (content : Str) :
    id_from_content content = id_from_content_amendedC5 content ∧
    id_from_content [] = [] := by
  constructor
  · unfold id_from_content id_from_content_amendedC5 normalize_id
    rw [funext normalizeChar_eq_amended]
  · decide

/-- Conversion of a natural number below the surrogate range round trips
through `Char.ofNat`. -/
theorem char_toNat_ofNat (n : Nat) (h : n < 55296) : (Char.ofNat n).toNat = n := by
  simp [Char.ofNat, Nat.isValidChar, h, Char.ofNatAux, Char.toNat, UInt32.toNat, UInt32.ofNat']

/-- ASCII lowercasing shifts the code of an ASCII capital letter by 32 and
fixes the code of every other character. -/
theorem rustToAsciiLowercase_toNat (c : Char) :
    (rustToAsciiLowercase c).toNat =
      if 65 ≤ c.toNat ∧ c.toNat ≤ 90 then c.toNat + 32 else c.toNat := by
  unfold rustToAsciiLowercase
  by_cases hup : 65 ≤ c.toNat ∧ c.toNat ≤ 90
  · rw [if_pos hup, if_pos hup]
    exact char_toNat_ofNat _ (by omega)
  · rw [if_neg hup, if_neg hup]

/-- ASCII lowercasing fixes every character that is not an ASCII capital
letter. -/
theorem rustToAsciiLowercase_eq_self (y : Char) (h : ¬ (65 ≤ y.toNat ∧ y.toNat ≤ 90)) :
    rustToAsciiLowercase y = y := by
  unfold rustToAsciiLowercase
  rw [if_neg h]

/-- An alphanumeric character is never whitespace (the modelled ranges are
disjoint, as the Unicode properties are). -/
theorem rustIsAlphanumeric_not_whitespace (c : Char)
    (h : rustIsAlphanumeric c = true) : rustIsWhitespace c = false := by
  unfold rustIsAlphanumeric at h
  rw [decide_eq_true_eq] at h
  unfold rustIsWhitespace
  apply decide_eq_false
  omega

/-- Every character produced by the normalizer is a fixed point of the
normalizer, is alphanumeric or underscore or hyphen, is not an ASCII
capital letter and is not whitespace. -/
theorem normalizeChar_fixpoint (c x : Char) (h : normalizeChar c = some x) :
    normalizeChar x = some x ∧
    (rustIsAlphanumeric x = true ∨ x = '_' ∨ x = '-') ∧
    isAsciiUpperChar x = false ∧ rustIsWhitespace x = false := by
  unfold normalizeChar at h
  by_cases h1 : (rustIsAlphanumeric c || c = '_' || c = '-') = true
  · rw [if_pos h1, Option.some.injEq] at h
    subst h
    rw [Bool.or_eq_true, Bool.or_eq_true] at h1
    rcases h1 with (ha | hu) | hh
    · by_cases hup : 65 ≤ c.toNat ∧ c.toNat ≤ 90
      · have hx : (rustToAsciiLowercase c).toNat = c.toNat + 32 := by
          rw [rustToAsciiLowercase_toNat, if_pos hup]
        have hxal : rustIsAlphanumeric (rustToAsciiLowercase c) = true := by
          unfold rustIsAlphanumeric
          apply decide_eq_true
          omega
        have hxup : isAsciiUpperChar (rustToAsciiLowercase c) = false := by
          unfold isAsciiUpperChar
          apply decide_eq_false
          omega
        have hxws : rustIsWhitespace (rustToAsciiLowercase c) = false :=
          rustIsAlphanumeric_not_whitespace _ hxal
        have hxlow : rustToAsciiLowercase (rustToAsciiLowercase c) = rustToAsciiLowercase c :=
          rustToAsciiLowercase_eq_self _ (by omega)
        refine ⟨?_, Or.inl hxal, hxup, hxws⟩
        unfold normalizeChar
        simp [hxal, hxlow]
      · have hx : rustToAsciiLowercase c = c := rustToAsciiLowercase_eq_self c hup
        rw [hx]
        have hxup : isAsciiUpperChar c = false := by
          unfold isAsciiUpperChar
          apply decide_eq_false
          exact hup
        refine ⟨?_, Or.inl ha, hxup, rustIsAlphanumeric_not_whitespace c ha⟩
        unfold normalizeChar
        rw [ha]
        simp [hx]
    · rw [decide_eq_true_eq] at hu
      subst hu
      refine ⟨by decide, Or.inr (Or.inl rfl), by decide, by decide⟩
    · rw [decide_eq_true_eq] at hh
      subst hh
      refine ⟨by decide, Or.inr (Or.inr rfl), by decide, by decide⟩
  · rw [if_neg h1] at h
    by_cases h2 : rustIsWhitespace c = true
    · rw [if_pos h2, Option.some.injEq] at h
      subst h
      refine ⟨by decide, Or.inr (Or.inr rfl), by decide, by decide⟩
    · rw [if_neg h2] at h
      exact absurd h (by simp)

/-- C10: `normalize_id` is idempotent, and every character of its output
is alphanumeric (never an ASCII capital letter), underscore or hyphen, and
never whitespace. -/
theorem c10_normalize_id_idempotent (s : Str) :
    normalize_id (normalize_id s) = normalize_id s ∧
    ∀ c ∈ normalize_id s,
      (rustIsAlphanumeric c = true ∨ c = '_' ∨ c = '-') ∧
      isAsciiUpperChar c = false ∧ rustIsWhitespace c = false := by
  constructor
  · induction s with
    | nil => rfl
    | cons c s ih =>
      cases hc : normalizeChar c with
      | none => simp [normalize_id, List.filterMap_cons, hc] at ih ⊢; exact ih
      | some x =>
        have hfix := (normalizeChar_fixpoint c x hc).1
        simp [normalize_id, List.filterMap_cons, hc, hfix] at ih ⊢
        exact ih
  · intro c hc
    rw [normalize_id, List.mem_filterMap] at hc
    obtain ⟨a, _, ha⟩ := hc
    exact (normalizeChar_fixpoint a c ha).2

/-- Witness for C10 at concrete inputs. -/
theorem c10_witness :
    normalize_id (normalize_id ['A', ' ', 'b']) = normalize_id ['A', ' ', 'b'] ∧
    ((rustIsAlphanumeric 'a' = true ∨ 'a' = '_' ∨ 'a' = '-') ∧
      isAsciiUpperChar 'a' = false ∧ rustIsWhitespace 'a' = false) :=
  ⟨(c10_normalize_id_idempotent ['A', ' ', 'b']).1,
   (c10_normalize_id_idempotent ['A']).2 'a' (by decide)⟩

end MdBookUtils
